import Mathlib

/-!
Shallow embedding of the NAI HTTP load-generation engine (`nai-ddos.py`)
and verification of the specification's claims about it.

Conventions of the embedding:
* Python floats are modelled as `ℚ` (all arithmetic the claims touch is
  exact affine arithmetic, where float and rational agree up to rounding
  that no claim depends on).
* Python `None` becomes `Option.none`; a function that returns
  `float("nan")` as an explicit "undefined" marker is modelled as an
  `Option`-returning function with `none` for the NaN case.
* `int(k)` (truncation toward zero) is modelled by `⌊k⌋.toNat`; on the
  domain `k ≥ 0` in which every claim lives, truncation and floor agree,
  and `Int.toNat` clamps the (never reached) negative case to `0`.
* Python dicts keep insertion order; they are modelled as association
  lists with an insert-or-bump-in-place update.
-/

namespace NaiDdos

/-! ### Rate pacer (worker, lines 114-119)

```
if args.rps > 0:
    delay = 1.0 / args.rps
else:
    delay = 0.0
```
-/

/-- Per-iteration pacing delay a worker computes from `args.rps`.
Note the worker count does not appear: the delay is `1/rps` per thread. -/
def pacingDelay (rps : ℚ) : ℚ :=
  if 0 < rps then 1 / rps else 0

/-! ### Outcome classification (worker, lines 130-147)

```
ok = False
code = None
try:
    resp = session.get(url, ...)          -- transport collaborator
    code = resp.status_code
    ok = 200 <= resp.status_code < 500
except requests.RequestException:
    ok = False
```
-/

/-- Transport-level errors raised by the HTTP collaborator; all of them
are `requests.RequestException` subclasses and reach the worker's single
`except` clause. -/
inductive RequestException
  | connectionError
  | timeout
  | tlsFailure
  | dnsFailure
deriving DecidableEq, Repr

/-- The transport collaborator either returns a response status code or
raises a `RequestException`. -/
abbrev TransportResult := Except RequestException ℕ

/-- Classification of one attempt: the `(ok, code)` pair the worker hands
to `metrics.record`.  On a response, `ok = 200 <= status < 500` and the
status code is recorded; on a transport exception, `ok = False` and
`code` keeps its initial `None`. -/
def classify (r : TransportResult) : Bool × Option ℕ :=
  match r with
  | .ok s => (decide (200 ≤ s) && decide (s < 500), some s)
  | .error _ => (false, none)

/-! ### Metrics aggregator (lines 63-79)

```
class Metrics:
    def __init__(self):
        self.latencies = []
        self.success = 0
        self.fail = 0
        self.codes = {}

    def record(self, ok, latency, code=None):
        with self.lock:
            if ok:
                self.success += 1
                self.latencies.append(latency)
            else:
                self.fail += 1
            if code is not None:
                self.codes[code] = self.codes.get(code, 0) + 1
```
The lock only serialises calls; the per-call state change is the pure
function below, applied once per `record` call.
-/

structure Metrics where
  success : ℕ
  fail : ℕ
  latencies : List ℚ
  codes : List (ℕ × ℕ)
deriving DecidableEq, Repr

/-- The fresh aggregator built by `Metrics.__init__`. -/
def Metrics.init : Metrics := ⟨0, 0, [], []⟩

/-- `self.codes[code] = self.codes.get(code, 0) + 1` on an
insertion-ordered dict: bump the existing entry in place, or append a
fresh entry with count 1. -/
def bumpCode : List (ℕ × ℕ) → ℕ → List (ℕ × ℕ)
  | [], c => [(c, 1)]
  | (k, v) :: rest, c =>
      if k = c then (k, v + 1) :: rest else (k, v) :: bumpCode rest c

/-- One `Metrics.record(ok, latency, code)` call. -/
def Metrics.record (m : Metrics) (ok : Bool) (latency : ℚ)
    (code : Option ℕ) : Metrics :=
  let m' :=
    if ok then
      { m with success := m.success + 1, latencies := m.latencies ++ [latency] }
    else
      { m with fail := m.fail + 1 }
  match code with
  | some c => { m' with codes := bumpCode m'.codes c }
  | none => m'

/-- One argument triple of a `record` call. -/
structure Outcome where
  ok : Bool
  latency : ℚ
  code : Option ℕ
deriving DecidableEq, Repr

/-- Apply a sequence of `record` calls in order. -/
def Metrics.recordAll (m : Metrics) : List Outcome → Metrics
  | [] => m
  | o :: os => (m.record o.ok o.latency o.code).recordAll os

/-- `sum(codeHistogram.values())`. -/
def codeSum (codes : List (ℕ × ℕ)) : ℕ :=
  (codes.map Prod.snd).sum

/-- Number of recorded failures that carried no status code. -/
def noCodeFailures (os : List Outcome) : ℕ :=
  (os.filter (fun o => !o.ok && o.code == none)).length

/-- The spec's aggregator invariant, relating a metrics state to the
sequence of outcomes recorded into it:
`success + fail = total recorded = sum(histogram) + failures with no
code`, and `len(latencies) = success`. -/
def MetricsInv (m : Metrics) (os : List Outcome) : Prop :=
  m.success + m.fail = os.length ∧
  m.success + m.fail = codeSum m.codes + noCodeFailures os ∧
  m.latencies.length = m.success

instance (m : Metrics) (os : List Outcome) : Decidable (MetricsInv m os) := by
  unfold MetricsInv; infer_instance

/-! ### Percentile engine (lines 169-178)

```
def percentile(values, p):
    if not values:
        return float("nan")
    v = sorted(values)
    k = (len(v) - 1) * (p / 100.0)
    f = int(k)
    c = min(f + 1, len(v) - 1)
    if f == c:
        return v[int(k)]
    return v[f] + (v[c] - v[f]) * (k - f)
```
-/

/-- The non-empty branch of `percentile`, translated line by line.
Python's `sorted(values)` (a stable ascending sort) is modelled by
`List.insertionSort (· ≤ ·)`, which produces the same list: the sorted
permutation of the input.  `int(k)` is `⌊k⌋.toNat`; every use in the
claims has `k ≥ 0`, where truncation and floor agree.  Indexing `v[i]`
becomes `getD` with a default that is never reached since every index
stays below the length. -/
def percentileVal (values : List ℚ) (p : ℚ) : ℚ :=
  let v := values.insertionSort (· ≤ ·)
  let k : ℚ := ((v.length - 1 : ℕ) : ℚ) * (p / 100)
  let f : ℕ := (⌊k⌋).toNat
  let c : ℕ := min (f + 1) (v.length - 1)
  if f = c then v.getD ((⌊k⌋).toNat) 0
  else v.getD f 0 + (v.getD c 0 - v.getD f 0) * (k - (f : ℚ))

/-- `percentile` itself: `float("nan")` on empty input is the `none`
case; otherwise the computed value. -/
def percentile (values : List ℚ) (p : ℚ) : Option ℚ :=
  if values = [] then none else some (percentileVal values p)

/-- The spec's own description of the algorithm, written from its words
("sort samples ascending; `k = (n-1)*p/100`; `f = floor(k)`,
`c = min(f+1, n-1)`; if `f == c` return `samples[f]`, else
`samples[f] + (samples[c]-samples[f])*(k-f)`"), for comparison with the
source translation `percentileVal`. -/
def percentileSpec (samples : List ℚ) (p : ℚ) : ℚ :=
  let s := samples.insertionSort (· ≤ ·)
  let n := s.length
  let k : ℚ := ((n - 1 : ℕ) : ℚ) * (p / 100)
  let f : ℕ := (⌊k⌋).toNat
  let c : ℕ := min (f + 1) (n - 1)
  if f = c then s.getD f 0
  else s.getD f 0 + (s.getD c 0 - s.getD f 0) * (k - (f : ℚ))

/-- A `percentile(values, p)` call with the caller's list threaded
through as explicit state: the body binds `v = sorted(values)` — a fresh
sorted copy — and never rebinds or mutates `values`, so the caller's
list after the call is the list it passed in. -/
def percentileCall (values : List ℚ) (p : ℚ) : Option ℚ × List ℚ :=
  (percentile values p, values)

/-! ### Report (lines 180-183)

```
duration = max(0.001, end_ts - start_ts)
total = metrics.success + metrics.fail
rps = total / duration
```
-/

/-- The elapsed-duration divisor used by `print_report`. -/
def reportDuration (startTs endTs : ℚ) : ℚ :=
  max (1 / 1000) (endTs - startTs)

/-- The overall requests-per-second figure of the report. -/
def overallRps (total : ℕ) (startTs endTs : ℚ) : ℚ :=
  (total : ℚ) / reportDuration startTs endTs

/-! ### Job source (main lines 234-253, worker lines 121-128)

```
job_q = queue.Queue()
headers = {}
for h in args.header:
    if ":" in h:
        k, v = h.split(":", 1)
        headers[k.strip()] = v.strip()
payload = None
if args.payload:
    payload = json.loads(args.payload)  -- or the raw string
for _ in range(min(1000, args.threads * 10)):
    job_q.put((args.method, args.url, payload, headers))
```
and in the worker:
```
try:
    method, url, payload, headers = job_q.get_nowait()
except queue.Empty:
    method = args.method
    url = args.url
    payload = None
    headers = {}
```
-/

/-- A job descriptor: the `(method, url, payload, headers)` tuple. -/
structure Job where
  method : String
  url : String
  payload : Option String
  headers : List (String × String)
deriving DecidableEq, Repr

/-- The run configuration fields the job source reads.  `payload` is the
already-parsed `--payload` value (`none` when the flag is absent); the
JSON-or-raw-string parse in `main` only determines which opaque value is
stored, which no claim depends on. -/
structure Args where
  method : String
  url : String
  payload : Option String
  header : List String
deriving DecidableEq, Repr

/-- `headers[k] = v` on an insertion-ordered dict: replace in place or
append. -/
def setKey : List (String × String) → String → String → List (String × String)
  | [], k, v => [(k, v)]
  | (k', v') :: rest, k, v =>
      if k' = k then (k', v) :: rest else (k', v') :: setKey rest k v

/-- The header-parsing loop of `main`: for each `--header` value that
contains a colon, split at the first colon and store the trimmed key and
value. -/
def parseHeaders (hs : List String) : List (String × String) :=
  hs.foldl
    (fun headers h =>
      if h.contains (Char.ofNat 58) then
        let parts := h.splitOn ":"
        setKey headers (parts.headD "").trim ((String.intercalate ":" parts.tail).trim)
      else headers)
    []

/-- The job `main` pushes into the queue: default method and URL with the
run's parsed payload and headers. -/
def defaultJob (a : Args) : Job :=
  ⟨a.method, a.url, a.payload, parseHeaders a.header⟩

/-- The queue contents after `main`'s pre-population loop. -/
def queueJobs (a : Args) (threads : ℕ) : List Job :=
  List.replicate (min 1000 (threads * 10)) (defaultJob a)

/-- The worker's job fetch: a non-blocking pop that on an empty queue
falls back to `(args.method, args.url, None, {})` instead of raising.
The pop's effect on the queue does not matter to any claim, so only the
fetched descriptor is returned. -/
def fetchJob (q : List Job) (a : Args) : Job :=
  match q with
  | j :: _ => j
  | [] => ⟨a.method, a.url, none, []⟩

/-! ### One trip through the worker loop (lines 106-149)

```
while not shutdown_flag.is_set():
    now = time.time()
    if now < start_ts:
        time.sleep(min(0.01, start_ts - now)); continue
    if now >= end_ts:
        break
    ...fetch job, issue request, classify...
    metrics.record(ok, latency, code)
    ...
```
-/

/-- One iteration of the worker loop, as a function of the guard inputs
and the transport collaborator's result.  The returned `Bool` is whether
the loop goes on to another iteration (`false` = the loop exits).  The
single `except requests.RequestException` clause is the `.error` branch
of `classify`: a transport error reaches `metrics.record` as a failure
and the iteration falls through to the next one, never out of the loop. -/
def workerIteration (shutdown : Bool) (now startTs endTs : ℚ)
    (tr : TransportResult) (latency : ℚ) (m : Metrics) : Metrics × Bool :=
  if shutdown then (m, false)
  else if now < startTs then (m, true)
  else if endTs ≤ now then (m, false)
  else (m.record (classify tr).1 latency (classify tr).2, true)

/-! ### Interpolation helper for the percentile proofs -/

/-- The uniform interpolation formula behind `percentileVal`: at virtual
rank `k` over sorted samples `v`, the value
`v[f] + (v[c] - v[f]) * (k - f)` with `f = ⌊k⌋.toNat` and
`c = min (f+1) (n-1)`.  When `f = c` the slope term vanishes, so this
agrees with the `if f == c` branch of the source. -/
def interpAt (v : List ℚ) (k : ℚ) : ℚ :=
  v.getD ((⌊k⌋).toNat) 0 +
    (v.getD (min ((⌊k⌋).toNat + 1) (v.length - 1)) 0 - v.getD ((⌊k⌋).toNat) 0) *
      (k - (((⌊k⌋).toNat : ℕ) : ℚ))

/-! ## Claims -/

/-- C1, counterexample.  The claim says the per-iteration delay equals
`T / R`; at target rate `R = 100` and worker count `T = 10` the code's
delay is `1/100`, not `10/100`. -/
theorem C1_pacing_counterexample : ¬ (pacingDelay 100 = 10 / 100) := by
  norm_num [pacingDelay]

/-- C1, amended.  The pacing delay a worker computes is `1 / R` seconds
for every target rate `R > 0` — independent of the worker count — and
`0` for `R = 0`; consequently each worker's rate approximates `R`, the
summed rate approximates `T * R`, and with `threads = 10`, `rps = 100`
over a 5-second window with negligible latency the idealized total
request count `T * (window / delay)` is `5000`, not `500`. -/
theorem C1_pacing_delay : (∀ R : ℚ, 0 < R → pacingDelay R = 1 / R) ∧
    pacingDelay 0 = 0 ∧ (10 : ℚ) * (5 / pacingDelay 100) = 5000 := by
  refine ⟨fun R hR => ?_, ?_, ?_⟩
  · simp [pacingDelay, if_pos hR]
  · norm_num [pacingDelay]
  · norm_num [pacingDelay]

/-- C1, witness for the amended theorem at `R = 4`. -/
theorem C1_pacing_delay_witness : pacingDelay 4 = 1 / 4 :=
  C1_pacing_delay.1 4 (by norm_num)

/-- C2.  A received response is classified as success exactly when its
status code lies in `[200, 500)` (`199` fails, `200` and `499` succeed,
`500` fails), the response's status code is always recorded, and every
transport-level exception is classified as failure with no status code. -/
theorem C2_status_classification :
    (∀ s : ℕ, (classify (Except.ok s)).1 = (decide (200 ≤ s) && decide (s < 500))) ∧
    (∀ s : ℕ, (classify (Except.ok s)).2 = some s) ∧
    (∀ e : RequestException, classify (Except.error e) = (false, none)) ∧
    (classify (Except.ok 199)).1 = false ∧
    (classify (Except.ok 200)).1 = true ∧
    (classify (Except.ok 499)).1 = true ∧
    (classify (Except.ok 500)).1 = false := by
  refine ⟨fun s => rfl, fun s => rfl, fun e => rfl, ?_, ?_, ?_, ?_⟩ <;> decide

/-- C8.  On an empty sample list, `percentile` returns the explicit
"undefined" marker (the embedding of `float("nan")`) for every rank `p`,
rather than raising. -/
theorem C8_percentile_empty : ∀ p : ℚ, percentile [] p = none := by
  intro p
  simp [percentile]

/-- C9.  A `percentile` call never mutates the caller's sample list: the
body sorts a fresh copy (`v = sorted(values)`), so the list state after
the call is the list that was passed in, and the returned value is
`percentile` of that unchanged list. -/
theorem C9_percentile_no_mutation :
    ∀ (values : List ℚ) (p : ℚ),
      percentileCall values p = (percentile values p, values) := by
  intro values p
  rfl

/-- C10.  The report's elapsed-duration divisor is clamped to at least
`0.001` seconds, hence never zero — so the overall-RPS division is
well-defined for every start/end pair, and when `end_ts ≤ start_ts` the
divisor is exactly the clamp value. -/
theorem C10_report_rps_well_defined :
    ∀ startTs endTs : ℚ,
      (1 : ℚ) / 1000 ≤ reportDuration startTs endTs ∧
      reportDuration startTs endTs ≠ 0 ∧
      (∀ total : ℕ,
        overallRps total startTs endTs * reportDuration startTs endTs = total) ∧
      (endTs ≤ startTs → reportDuration startTs endTs = 1 / 1000) := by
  intro startTs endTs
  have hle : (1 : ℚ) / 1000 ≤ reportDuration startTs endTs := le_max_left _ _
  have hne : reportDuration startTs endTs ≠ 0 := by positivity
  refine ⟨hle, hne, fun total => div_mul_cancel₀ _ hne, fun h => ?_⟩
  have : endTs - startTs ≤ 1 / 1000 := by linarith
  exact max_eq_left this

/-- C10, witness at `start = 3`, `end = 2` (a reversed window). -/
theorem C10_report_rps_witness :
    reportDuration 3 2 = 1 / 1000 ∧ (1 : ℚ) / 1000 ≤ reportDuration 3 2 :=
  ⟨(C10_report_rps_well_defined 3 2).2.2.2 (by norm_num),
   (C10_report_rps_well_defined 3 2).1⟩

lemma codeSum_bumpCode (codes : List (ℕ × ℕ)) (c : ℕ) :
    codeSum (bumpCode codes c) = codeSum codes + 1 := by
  induction codes with
  | nil => simp [bumpCode, codeSum]
  | cons kv rest ih =>
      obtain ⟨k, v⟩ := kv
      by_cases h : k = c
      · simp [bumpCode, h, codeSum]
        omega
      · simp [bumpCode, h, codeSum] at ih ⊢
        omega

lemma noCodeFailures_append (os : List Outcome) (o : Outcome) :
    noCodeFailures (os ++ [o]) =
      noCodeFailures os + (if (!o.ok && o.code == none) = true then 1 else 0) := by
  by_cases h : (!o.ok && o.code == none) = true <;>
    simp [noCodeFailures, List.filter_append, List.filter_cons, h]

/-- A single `record` call of a well-formed outcome (a success always
carries a status code, as the worker's classification guarantees)
preserves the aggregator invariant. -/
lemma record_preserves_inv (m : Metrics) (os : List Outcome) (o : Outcome)
    (hwf : o.ok = true → o.code ≠ none) (hinv : MetricsInv m os) :
    MetricsInv (m.record o.ok o.latency o.code) (os ++ [o]) := by
  obtain ⟨h1, h2, h3⟩ := hinv
  obtain ⟨ok, lat, code⟩ := o
  cases ok <;> rcases code with _ | c
  · refine ⟨?_, ?_, ?_⟩ <;>
      simp_all [Metrics.record, MetricsInv, noCodeFailures_append] <;> omega
  · refine ⟨?_, ?_, ?_⟩ <;>
      simp_all [Metrics.record, MetricsInv, noCodeFailures_append, codeSum_bumpCode] <;>
      omega
  · exact absurd (hwf rfl) (by simp)
  · refine ⟨?_, ?_, ?_⟩ <;>
      simp_all [Metrics.record, MetricsInv, noCodeFailures_append, codeSum_bumpCode] <;>
      omega

lemma recordAll_preserves_inv (m : Metrics) (pre : List Outcome)
    (os : List Outcome) (hwf : ∀ o ∈ os, o.ok = true → o.code ≠ none)
    (hinv : MetricsInv m pre) :
    MetricsInv (m.recordAll os) (pre ++ os) := by
  induction os generalizing m pre with
  | nil => simpa [Metrics.recordAll] using hinv
  | cons o rest ih =>
      have step := record_preserves_inv m pre o (hwf o (by simp)) hinv
      have := ih (m.record o.ok o.latency o.code) (pre ++ [o])
        (fun o' ho' => hwf o' (by simp [ho'])) step
      simpa [Metrics.recordAll, List.append_assoc] using this

/-- C3, counterexample.  The claim quantifies over every sequence of
`record(ok, latency, code)` calls; recording a single success with no
status code makes `success + fail = 1` while
`sum(histogram) + failures-without-code = 0`, so the claimed equality
fails on that sequence. -/
theorem C3_metrics_counterexample :
    ¬ MetricsInv (Metrics.init.recordAll [⟨true, 0, none⟩])
        [⟨true, 0, none⟩] := by
  decide

/-- C3, amended.  For every sequence of `record` calls in which each
successful outcome carries a status code — which is what the worker's
classification always produces — the final state satisfies
`success + fail = total recorded = sum(histogram) + failures with no
status code` and `len(latencies) = success`; moreover every single such
`record` call preserves the invariant. -/
theorem C3_metrics_invariant :
    (∀ os : List Outcome, (∀ o ∈ os, o.ok = true → o.code ≠ none) →
       MetricsInv (Metrics.init.recordAll os) os) ∧
    (∀ (m : Metrics) (os : List Outcome) (o : Outcome),
       (o.ok = true → o.code ≠ none) → MetricsInv m os →
       MetricsInv (m.record o.ok o.latency o.code) (os ++ [o])) := by
  constructor
  · intro os hwf
    simpa using recordAll_preserves_inv Metrics.init [] os hwf (by decide)
  · exact record_preserves_inv

/-- C3, witness: the amended invariant at the concrete two-outcome
sequence (a 200 success, then a code-less failure). -/
theorem C3_metrics_invariant_witness :
    MetricsInv
      (Metrics.init.recordAll [⟨true, 5, some 200⟩, ⟨false, 7, none⟩])
      [⟨true, 5, some 200⟩, ⟨false, 7, none⟩] :=
  C3_metrics_invariant.1 [⟨true, 5, some 200⟩, ⟨false, 7, none⟩] (by decide)

/-- C6, counterexample.  With a run configured with a payload
(`--payload "x"`), the descriptor the worker builds on an empty queue
carries `payload = None` and empty headers, while every pre-populated
queue job carries the run's parsed payload — so the fallback is not the
same descriptor the queue jobs carry. -/
theorem C6_fallback_counterexample :
    fetchJob [] ⟨"GET", "http://example.test/", some "x", []⟩ ≠
        defaultJob ⟨"GET", "http://example.test/", some "x", []⟩ ∧
      defaultJob ⟨"GET", "http://example.test/", some "x", []⟩ ∈
        queueJobs ⟨"GET", "http://example.test/", some "x", []⟩ 1 := by
  constructor
  · simp [fetchJob, defaultJob, Job.mk.injEq]
  · simp [queueJobs, List.mem_replicate]

/-- C6, amended.  On an empty queue the worker's non-blocking fetch
returns (rather than raising or blocking) a fallback descriptor with the
run's default method and URL — matching the method and URL of every
pre-populated queue job — but with an empty header map and no payload,
unlike the queue jobs, which carry the run's parsed headers and
payload. -/
theorem C6_fallback_default_method_url :
    ∀ a : Args,
      fetchJob [] a = ⟨a.method, a.url, none, []⟩ ∧
      (∀ (t : ℕ) (j : Job), j ∈ queueJobs a t →
        (fetchJob [] a).method = j.method ∧ (fetchJob [] a).url = j.url) := by
  intro a
  refine ⟨rfl, fun t j hj => ?_⟩
  have hj' : j = defaultJob a := (List.eq_of_mem_replicate hj)
  subst hj'
  exact ⟨rfl, rfl⟩

/-- C6, witness: the amended statement at a concrete configuration and
the queue job it pre-populates. -/
theorem C6_fallback_witness :
    (fetchJob [] ⟨"GET", "http://example.test/", some "x", []⟩).method =
        (defaultJob ⟨"GET", "http://example.test/", some "x", []⟩).method ∧
      (fetchJob [] ⟨"GET", "http://example.test/", some "x", []⟩).url =
        (defaultJob ⟨"GET", "http://example.test/", some "x", []⟩).url :=
  (C6_fallback_default_method_url ⟨"GET", "http://example.test/", some "x", []⟩).2
    1 (defaultJob ⟨"GET", "http://example.test/", some "x", []⟩)
    (by simp [queueJobs, List.mem_replicate])

/-- C7.  In every in-window, non-shutdown iteration of the worker loop
whose transport call raises a request error, the error is absorbed
inside the iteration: the outcome reaches the aggregator as a failure
with no status code (only `fail` advances), and the loop goes on to its
next iteration — the iteration function is total, so the error never
propagates out of the loop. -/
theorem C7_transport_error_contained
    (now startTs endTs latency : ℚ) (e : RequestException) (m : Metrics)
    (hstart : startTs ≤ now) (hend : now < endTs) :
    workerIteration false now startTs endTs (Except.error e) latency m =
        (m.record false latency none, true) ∧
      (m.record false latency none).fail = m.fail + 1 ∧
      (m.record false latency none).success = m.success ∧
      (m.record false latency none).latencies = m.latencies ∧
      (m.record false latency none).codes = m.codes := by
  refine ⟨?_, by simp [Metrics.record], by simp [Metrics.record],
    by simp [Metrics.record], by simp [Metrics.record]⟩
  simp [workerIteration, classify, not_lt.mpr hstart, not_le.mpr hend]

/-- C7, witness at a concrete mid-window iteration with a timeout. -/
theorem C7_transport_error_witness :
    workerIteration false 5 0 10 (Except.error RequestException.timeout) 3
        Metrics.init =
      (Metrics.init.record false 3 none, true) :=
  (C7_transport_error_contained 5 0 10 3 RequestException.timeout Metrics.init
    (by norm_num) (by norm_num)).1

lemma sorted_getD_mono (v : List ℚ) (hs : List.Sorted (· ≤ ·) v) {i j : ℕ}
    (hij : i ≤ j) (hj : j < v.length) : v.getD i 0 ≤ v.getD j 0 := by
  have hi : i < v.length := lt_of_le_of_lt hij hj
  rw [List.getD_eq_getElem?_getD, List.getElem?_eq_getElem hi,
    List.getD_eq_getElem?_getD, List.getElem?_eq_getElem hj]
  exact hs.rel_get_of_le hij

lemma toNatFloor_le (k : ℚ) (hk : 0 ≤ k) : (((⌊k⌋).toNat : ℕ) : ℚ) ≤ k := by
  have h0 : (0 : ℤ) ≤ ⌊k⌋ := Int.floor_nonneg.mpr hk
  have h : (((⌊k⌋).toNat : ℕ) : ℚ) = ((⌊k⌋ : ℤ) : ℚ) := by
    rw [← Int.cast_natCast, Int.toNat_of_nonneg h0]
  rw [h]
  exact Int.floor_le k

lemma lt_toNatFloor_add_one (k : ℚ) (hk : 0 ≤ k) :
    k < (((⌊k⌋).toNat : ℕ) : ℚ) + 1 := by
  have h0 : (0 : ℤ) ≤ ⌊k⌋ := Int.floor_nonneg.mpr hk
  have h : (((⌊k⌋).toNat : ℕ) : ℚ) = ((⌊k⌋ : ℤ) : ℚ) := by
    rw [← Int.cast_natCast, Int.toNat_of_nonneg h0]
  rw [h]
  exact Int.lt_floor_add_one k

lemma toNatFloor_le_of_le {k : ℚ} {n : ℕ} (h : k ≤ (n : ℚ)) :
    (⌊k⌋).toNat ≤ n := by
  have h' : ⌊k⌋ ≤ (n : ℤ) := by
    have := Int.floor_le_floor h
    rwa [Int.floor_natCast] at this
  exact Int.toNat_le.mpr h'

/-- Monotonicity of the interpolation formula over a sorted sample list:
moving the virtual rank right never decreases the interpolated value. -/
lemma interp_formula_mono (v : List ℚ) (hs : List.Sorted (· ≤ ·) v)
    (hn : 1 ≤ v.length) {f₁ f₂ : ℕ} {k₁ k₂ : ℚ}
    (hf₂n : f₂ ≤ v.length - 1)
    (hk₁ : k₁ < (f₁ : ℚ) + 1) (h₂k : (f₂ : ℚ) ≤ k₂)
    (hf₁₂ : f₁ ≤ f₂) (hsame : f₁ = f₂ → k₁ ≤ k₂) :
    v.getD f₁ 0 + (v.getD (min (f₁ + 1) (v.length - 1)) 0 - v.getD f₁ 0) * (k₁ - (f₁ : ℚ)) ≤
      v.getD f₂ 0 + (v.getD (min (f₂ + 1) (v.length - 1)) 0 - v.getD f₂ 0) * (k₂ - (f₂ : ℚ)) := by
  have hmin₂ : min (f₂ + 1) (v.length - 1) < v.length := by
    have := min_le_right (f₂ + 1) (v.length - 1); omega
  have s₂ : 0 ≤ v.getD (min (f₂ + 1) (v.length - 1)) 0 - v.getD f₂ 0 :=
    sub_nonneg.mpr (sorted_getD_mono v hs (le_min (Nat.le_succ _) hf₂n) hmin₂)
  rcases Nat.eq_or_lt_of_le hf₁₂ with heq | hlt
  · subst heq
    have hk₁₂ : k₁ ≤ k₂ := hsame rfl
    have := mul_le_mul_of_nonneg_left (sub_le_sub_right hk₁₂ (f₁ : ℚ)) s₂
    linarith
  · have hc₁eq : min (f₁ + 1) (v.length - 1) = f₁ + 1 := min_eq_left (by omega)
    rw [hc₁eq]
    have s₁ : 0 ≤ v.getD (f₁ + 1) 0 - v.getD f₁ 0 :=
      sub_nonneg.mpr (sorted_getD_mono v hs (Nat.le_succ _) (by omega))
    have step1 : v.getD f₁ 0 + (v.getD (f₁ + 1) 0 - v.getD f₁ 0) * (k₁ - (f₁ : ℚ)) ≤
        v.getD (f₁ + 1) 0 := by
      have ht : k₁ - (f₁ : ℚ) ≤ 1 := by linarith
      have := mul_le_of_le_one_right s₁ ht
      linarith
    have step2 : v.getD (f₁ + 1) 0 ≤ v.getD f₂ 0 :=
      sorted_getD_mono v hs (by omega) (by omega)
    have step3 : v.getD f₂ 0 ≤
        v.getD f₂ 0 +
          (v.getD (min (f₂ + 1) (v.length - 1)) 0 - v.getD f₂ 0) * (k₂ - (f₂ : ℚ)) := by
      have := mul_nonneg s₂ (sub_nonneg.mpr h₂k)
      linarith
    linarith

lemma interpAt_mono (v : List ℚ) (hs : List.Sorted (· ≤ ·) v) (hn : 1 ≤ v.length)
    {k₁ k₂ : ℚ} (hk0 : 0 ≤ k₁) (hk12 : k₁ ≤ k₂)
    (hk2 : k₂ ≤ ((v.length - 1 : ℕ) : ℚ)) :
    interpAt v k₁ ≤ interpAt v k₂ := by
  have hk0' : 0 ≤ k₂ := le_trans hk0 hk12
  unfold interpAt
  exact interp_formula_mono v hs hn
    (toNatFloor_le_of_le hk2)
    (lt_toNatFloor_add_one k₁ hk0) (toNatFloor_le k₂ hk0')
    (Int.toNat_le_toNat (Int.floor_le_floor hk12))
    (fun _ => hk12)

/-- `percentileVal` is the interpolation formula applied to the sorted
samples at the virtual rank: the `if f == c` branch of the source agrees
with the formula because the slope term vanishes there. -/
lemma percentileVal_eq_interpAt (values : List ℚ) (p : ℚ) :
    percentileVal values p =
      interpAt (values.insertionSort (· ≤ ·))
        ((((values.insertionSort (· ≤ ·)).length - 1 : ℕ) : ℚ) * (p / 100)) := by
  unfold percentileVal interpAt
  dsimp only
  split
  next h => rw [← h]; ring
  next h => rfl

/-- C4.  On every non-empty sample list and rank `p ∈ [0, 100]`,
`percentile` returns exactly the spec's linear-interpolation reference
value (`percentileSpec`, written from the spec's words); in particular
on a singleton list it returns the sole sample for any `p`. -/
theorem C4_percentile_matches_reference :
    (∀ (v : List ℚ) (p : ℚ), v ≠ [] → 0 ≤ p → p ≤ 100 →
      percentile v p = some (percentileSpec v p)) ∧
    (∀ x p : ℚ, percentile [x] p = some x) := by
  constructor
  · intro v p hne h0 h100
    rw [percentile, if_neg hne]
    rfl
  · intro x p
    rw [percentile, if_neg (by simp)]
    simp [percentileVal]

/-- C4, witness at `samples = [1, 2]`, `p = 50`. -/
theorem C4_percentile_matches_reference_witness :
    percentile [1, 2] 50 = some (percentileSpec [1, 2] 50) ∧
      percentile [(7 : ℚ)] 33 = some 7 :=
  ⟨C4_percentile_matches_reference.1 [1, 2] 50 (by simp) (by norm_num) (by norm_num),
   C4_percentile_matches_reference.2 7 33⟩

/-- C5.  For a fixed non-empty sample list, `percentile` is monotone in
the rank: `p₁ < p₂` within `[0, 100]` gives a value at `p₁` no larger
than the value at `p₂` (and on non-empty input `percentile` returns
exactly those values, not the undefined marker). -/
theorem C5_percentile_monotone (v : List ℚ) (p₁ p₂ : ℚ) (hne : v ≠ [])
    (h0 : 0 ≤ p₁) (h12 : p₁ < p₂) (h100 : p₂ ≤ 100) :
    percentileVal v p₁ ≤ percentileVal v p₂ ∧
      percentile v p₁ = some (percentileVal v p₁) ∧
      percentile v p₂ = some (percentileVal v p₂) := by
  refine ⟨?_, by rw [percentile, if_neg hne], by rw [percentile, if_neg hne]⟩
  rw [percentileVal_eq_interpAt, percentileVal_eq_interpAt]
  have hs : List.Sorted (· ≤ ·) (v.insertionSort (· ≤ ·)) :=
    List.sorted_insertionSort (· ≤ ·) v
  have hn : 1 ≤ (v.insertionSort (· ≤ ·)).length := by
    rw [List.length_insertionSort]
    exact List.length_pos.mpr hne
  set A : ℚ := (((v.insertionSort (· ≤ ·)).length - 1 : ℕ) : ℚ) with hA
  have hA0 : 0 ≤ A := Nat.cast_nonneg _
  apply interpAt_mono _ hs hn
  · exact mul_nonneg hA0 (by positivity)
  · exact mul_le_mul_of_nonneg_left (by linarith) hA0
  · exact mul_le_of_le_one_right hA0 (by linarith)

/-- C5, witness at `samples = [1, 2]`, ranks `25 < 75`. -/
theorem C5_percentile_monotone_witness :
    percentileVal [1, 2] 25 ≤ percentileVal [1, 2] 75 :=
  (C5_percentile_monotone [1, 2] 25 75 (by simp) (by norm_num) (by norm_num)
    (by norm_num)).1

end NaiDdos
